import Mathlib

/-!
Verification development for the realtime customer-support agent server.

Text is modelled as `List Char`; the Python string operations used by the
code (`lower`, `split`, `strip`, `re.split(r'\n\n+', ...)`, substring
containment) are embedded below with Python semantics.  The knowledge
store, retrieval engine, session registry and message router are
translated from `rag_engine_simple.py`, `websocket_server.py` and
`config.py`.
-/

/-- Convert a Lean string literal to the `List Char` text representation. -/
def strToList (s : String) : List Char := s.data

/-- Whitespace predicate matching Python `str.split()` / `str.strip()`
(ASCII fragment: space, tab, newline, carriage return, vertical tab,
form feed). -/
def pyIsSpace (c : Char) : Bool :=
  c == ' ' || c == '\t' || c == '\n' || c == '\r' ||
  c == Char.ofNat 11 || c == Char.ofNat 12

/-- Python `str.lower()` (ASCII fragment), as used by `_simple_search`. -/
def lowerStr (l : List Char) : List Char := l.map Char.toLower

/-- Drop leading whitespace (first half of Python `str.strip()`). -/
def stripStart (l : List Char) : List Char := l.dropWhile pyIsSpace

/-- Drop trailing whitespace (second half of Python `str.strip()`). -/
def stripEnd (l : List Char) : List Char := (l.reverse.dropWhile pyIsSpace).reverse

/-- Python `str.strip()`: drop leading and trailing whitespace. -/
def pyStrip (l : List Char) : List Char := stripEnd (stripStart l)

/-- Helper for Python `str.split()`: accumulate the current word while
splitting on whitespace runs, discarding empty words. -/
def splitWsGo : List Char → List Char → List (List Char)
  | [], acc => if acc.isEmpty then [] else [acc.reverse]
  | c :: rest, acc =>
      if pyIsSpace c then
        if acc.isEmpty then splitWsGo rest [] else acc.reverse :: splitWsGo rest []
      else splitWsGo rest (c :: acc)

/-- Python `str.split()` with no argument: split on whitespace runs,
never producing empty words. -/
def splitWs (l : List Char) : List (List Char) := splitWsGo l []

/-- Does the text contain two adjacent newline characters (i.e. does
`re.split(r'\n\n+', text)` find a separator)? -/
def hasBlankBreak : List Char → Bool
  | a :: b :: rest => (a == '\n' && b == '\n') || hasBlankBreak (b :: rest)
  | _ => false

/-- Helper for `re.split(r'\n\n+', text)`: scan the characters tracking
the length `nl` of the current run of consecutive newlines; a finished run
of length at least 2 is a separator (consumed greedily), a run of length 1
is ordinary paragraph text. -/
def splitParaGo : List Char → List Char → Nat → List (List Char)
  | [], acc, nl =>
      if 2 ≤ nl then [acc.reverse, []]
      else [(List.replicate nl '\n' ++ acc).reverse]
  | c :: rest, acc, nl =>
      if c = '\n' then splitParaGo rest acc (nl + 1)
      else if 2 ≤ nl then acc.reverse :: splitParaGo rest [c] 0
      else splitParaGo rest (c :: (List.replicate nl '\n' ++ acc)) 0

/-- Python `re.split(r'\n\n+', text)`: split on maximal runs of at least
two newlines. -/
def splitPara (l : List Char) : List (List Char) := splitParaGo l [] 0

/-- Does `n` occur at the start of `h`? (list-of-char prefix test). -/
def leadsWith : List Char → List Char → Bool
  | [], _ => true
  | _ :: _, [] => false
  | a :: as, b :: bs => a == b && leadsWith as bs

/-- Python substring containment `n in h` on strings. -/
def occursIn (n : List Char) : List Char → Bool
  | [] => n.isEmpty
  | h@(_ :: t) => leadsWith n h || occursIn n t

/-- Chunk of ingested knowledge as stored by `SimpleRAGEngine.ingest_documents`:
content plus the source file's base name and path. -/
structure Chunk where
  content : List Char
  source : List Char
  path : List Char
deriving DecidableEq, Repr

/-- Loop of `SimpleRAGEngine._split_text`: accumulate stripped paragraphs
into a buffer, flushing when `len(current_chunk) + len(para) < chunk_size`
fails; skip empty paragraphs; flush the final buffer. -/
def splitGo (chunkSize : Nat) : List (List Char) → List Char → List (List Char) → List (List Char)
  | [], current, chunks =>
      if current.isEmpty then chunks else chunks ++ [pyStrip current]
  | p :: rest, current, chunks =>
      let para := pyStrip p
      if para.isEmpty then splitGo chunkSize rest current chunks
      else if current.length + para.length < chunkSize then
        splitGo chunkSize rest (current ++ para ++ ['\n', '\n']) chunks
      else if current.isEmpty then
        splitGo chunkSize rest (para ++ ['\n', '\n']) chunks
      else
        splitGo chunkSize rest (para ++ ['\n', '\n']) (chunks ++ [pyStrip current])

/-- `SimpleRAGEngine._split_text(text, chunk_size=800)`: paragraph split,
accumulate with threshold flush, and fall back to the whole raw text when
no chunk was produced. -/
def splitText (text : List Char) (chunkSize : Nat := 800) : List (List Char) :=
  let chunks := splitGo chunkSize (splitPara text) [] []
  if chunks.isEmpty then [text] else chunks

/-- Distinct lowercased whitespace-split query words,
`set(query.lower().split())` in `_simple_search`. -/
def queryWords (q : List Char) : List (List Char) := (splitWs (lowerStr q)).dedup

/-- Score of one chunk in `_simple_search`: the number of distinct query
words occurring as substrings of the lowercased chunk content. -/
def chunkScore (qws : List (List Char)) (c : Chunk) : Nat :=
  (qws.filter (fun w => occursIn w (lowerStr c.content))).length

/-- Stable descending insertion by the score component: the new element
goes in front of the first element whose score is not larger.  This is the
canonical stable sort that `list.sort(reverse=True, key=score)` performs. -/
def insertDesc (x : Nat × Chunk) : List (Nat × Chunk) → List (Nat × Chunk)
  | [] => [x]
  | y :: ys => if y.1 ≤ x.1 then x :: y :: ys else y :: insertDesc x ys

/-- Stable sort of scored chunks by descending score. -/
def sortDesc : List (Nat × Chunk) → List (Nat × Chunk)
  | [] => []
  | x :: xs => insertDesc x (sortDesc xs)

/-- `SimpleRAGEngine._simple_search(query, top_k)`: score every chunk,
keep positive scores, stable-sort descending, return the first `top_k`. -/
def simpleSearch (chunks : List Chunk) (q : List Char) (k : Nat := 3) : List Chunk :=
  let qws := queryWords q
  let scored := (chunks.map (fun c => (chunkScore qws c, c))).filter (fun p => 0 < p.1)
  ((sortDesc scored).take k).map Prod.snd

/-- Apostrophe character, written out so prompt and fallback literals can
embed it. -/
def apos : Char := Char.ofNat 39

/-- LLM configuration mirroring `LLMConfig` in `config.py`. -/
structure LLMConfig where
  modelName : List Char
  temperature : ℚ
  maxTokens : Nat
deriving DecidableEq, Repr

/-- Default LLM configuration values from `config.py`. -/
def llmConfig : LLMConfig :=
  { modelName := strToList "llama3.2", temperature := 3/10, maxTokens := 512 }

/-- Generation options passed to `ollama.generate`. -/
structure GenOptions where
  temperature : ℚ
  numPredict : Option Nat
deriving DecidableEq, Repr

/-- One invocation of the generation backend: model, prompt and options. -/
structure GenRequest where
  model : List Char
  prompt : List Char
  options : GenOptions
deriving DecidableEq, Repr

/-- Generation backend collaborator: returns the generated text or fails. -/
def Backend : Type := GenRequest → Except Unit (List Char)

/-- Grounded prompt built by `SimpleRAGEngine.query` from the retrieved
context and the question. -/
def groundedPrompt (context question : List Char) : List Char :=
  strToList "You are a helpful customer support agent. Use the following context to answer the question.\n\nContext from knowledge base:\n" ++
  context ++ strToList "\n\nCustomer Question: " ++ question ++
  strToList "\n\nInstructions:\n- Be polite and professional\n- Answer based on the context provided\n- If you don" ++
  [apos] ++ strToList "t know, say \"I don" ++ [apos] ++
  strToList "t have that information in my knowledge base\"\n- Keep answers clear and concise\n\nYour Response:"

/-- Ungrounded prompt built by `SimpleRAGEngine._get_direct_answer`. -/
def directPrompt (question : List Char) : List Char :=
  strToList "You are a helpful customer support agent. Answer this question professionally:\n\nQuestion: " ++
  question ++ strToList "\n\nAnswer:"

/-- Backend request issued on the grounded path of `SimpleRAGEngine.query`:
configured temperature and `num_predict` from the configuration. -/
def groundedRequest (relevant : List Chunk) (question : List Char) : GenRequest :=
  { model := llmConfig.modelName,
    prompt := groundedPrompt (List.intercalate (strToList "\n\n") (relevant.map Chunk.content)) question,
    options := { temperature := llmConfig.temperature, numPredict := some llmConfig.maxTokens } }

/-- Backend request issued by `_get_direct_answer`: fixed temperature 0.7
and no `num_predict` option. -/
def directRequest (question : List Char) : GenRequest :=
  { model := llmConfig.modelName,
    prompt := directPrompt question,
    options := { temperature := 7/10, numPredict := none } }

/-- Generic apology returned by `_get_direct_answer` when the backend
fails. -/
def apologyText : List Char :=
  strToList "I apologize, but I" ++ [apos] ++
  strToList "m having trouble processing your request right now."

/-- `SimpleRAGEngine._get_direct_answer`: call the backend at temperature
0.7 with the ungrounded prompt; swallow failure into a generic apology. -/
def directAnswer (gen : Backend) (question : List Char) : List Char :=
  match gen (directRequest question) with
  | .ok r => pyStrip r
  | .error _ => apologyText

/-- Python `dict.get(key, default)` over an association list. -/
def dictGet {α β : Type} [DecidableEq α] : List (α × β) → α → β → β
  | [], _, dflt => dflt
  | (k', v) :: rest, k, dflt => if k' = k then v else dictGet rest k dflt

/-- English fallback string of `_get_fallback_response`. -/
def enFallback : List Char :=
  strToList "I apologize, but I" ++ [apos] ++
  strToList "m having trouble answering that. Please try rephrasing your question."

/-- Spanish fallback string of `_get_fallback_response`. -/
def esFallback : List Char :=
  strToList "Disculpe, tengo problemas para responder eso. Por favor, reformule su pregunta."

/-- French fallback string of `_get_fallback_response`. -/
def frFallback : List Char :=
  strToList "Je m" ++ [apos] ++ strToList "excuse, j" ++ [apos] ++
  strToList "ai du mal à répondre à cela. Veuillez reformuler votre question."

/-- `SimpleRAGEngine._get_fallback_response`: language-keyed canned
responses, defaulting to the English one. -/
def fallbackResponse (language : List Char) : List Char :=
  dictGet
    [(strToList "en", enFallback), (strToList "es", esFallback), (strToList "fr", frFallback)]
    language enFallback

/-- Source document returned by `SimpleRAGEngine.query`, mirroring the
`Document` class (content plus a `source` metadata entry). -/
structure Document where
  page_content : List Char
  sourceName : Option (List Char)
deriving DecidableEq, Repr

/-- `SimpleRAGEngine.query(question, language)`: search, then either the
ungrounded direct path (no chunks) or the grounded path; any backend
failure on the grounded path becomes the language-specific fallback with
no sources. -/
def ragQuery (chunks : List Chunk) (gen : Backend) (question language : List Char) :
    List Char × List Document :=
  let relevant := simpleSearch chunks question 3
  if relevant.isEmpty then (directAnswer gen question, [])
  else
    match gen (groundedRequest relevant question) with
    | .ok r => (pyStrip r, relevant.map (fun c => ⟨c.content, some c.source⟩))
    | .error _ => (fallbackResponse language, [])

/-- Source-attribution record inside an outbound `Text` frame. -/
structure SourceRec where
  source : List Char
  excerpt : List Char
deriving DecidableEq, Repr

/-- Outbound frames emitted by `websocket_server.py` (welcome fields are
not modelled; the ack variant of `system` carries the new language). -/
inductive OutFrame where
  | system (message : List Char) (language : Option (List Char))
  | typing (isTyping : Bool)
  | text (content : List Char) (sources : List SourceRec) (processingTimeMs : Nat)
  | transcription (content : List Char) (detectedLanguage : List Char)
  | error (message : List Char) (timestamp : Nat)
deriving DecidableEq, Repr

/-- Decoded inbound JSON message: each field is read with `dict.get` and a
default at the use site, so absent fields are `none` (respectively `false`
for the boolean flag). -/
structure InMsg where
  typeTag : Option (List Char)
  content : Option (List Char)
  audioData : Option (List Char)
  wantAudioResponse : Bool
  langField : Option (List Char)
deriving DecidableEq, Repr

/-- Per-session metadata stored by `ConnectionManager.connect`. -/
structure SessionMeta where
  connectedAt : Nat
  language : List Char
  messageCount : Nat
deriving DecidableEq, Repr

/-- Session registry: the `active_connections` and `session_metadata`
dictionaries of `ConnectionManager`, keyed by session id, with the
transport-handle type `H` abstract. -/
structure ConnMgr (H : Type) where
  active : List (Nat × H)
  meta : List (Nat × SessionMeta)
deriving DecidableEq

/-- Dictionary lookup on an association list. -/
def alookup {β : Type} : List (Nat × β) → Nat → Option β
  | [], _ => none
  | (k', v) :: rest, k => if k' = k then some v else alookup rest k

/-- Dictionary key removal (`del d[k]` when present, no-op otherwise). -/
def aremove {β : Type} : List (Nat × β) → Nat → List (Nat × β)
  | [], _ => []
  | (k', v) :: rest, k => if k' = k then aremove rest k else (k', v) :: aremove rest k

/-- Update the value at a key in place, no-op if the key is absent. -/
def aupdate {β : Type} : List (Nat × β) → Nat → (β → β) → List (Nat × β)
  | [], _, _ => []
  | (k', v) :: rest, k, f => if k' = k then (k', f v) :: rest else (k', v) :: aupdate rest k f

/-- `ConnectionManager.disconnect`: drop the session id from both
dictionaries; absent ids are silently ignored. -/
def disconnect {H : Type} (cm : ConnMgr H) (sid : Nat) : ConnMgr H :=
  { active := aremove cm.active sid, meta := aremove cm.meta sid }

/-- `ConnectionManager.get_session_language`: language of the session,
defaulting to `"en"` when the session is unknown. -/
def getLanguage {H : Type} (cm : ConnMgr H) (sid : Nat) : List Char :=
  match alookup cm.meta sid with
  | some m => m.language
  | none => strToList "en"

/-- `ConnectionManager.set_session_language`: update the language when the
session exists, otherwise a no-op. -/
def setLanguage {H : Type} (cm : ConnMgr H) (sid : Nat) (language : List Char) : ConnMgr H :=
  { cm with meta := aupdate cm.meta sid (fun m => { m with language := language }) }

/-- `ConnectionManager.increment_message_count`: bump the counter when the
session exists, otherwise a no-op. -/
def incrementCount {H : Type} (cm : ConnMgr H) (sid : Nat) : ConnMgr H :=
  { cm with meta := aupdate cm.meta sid (fun m => { m with messageCount := m.messageCount + 1 }) }

/-- Supported language codes from `SupportedLanguages` in `config.py`. -/
def supportedLanguages : List (List Char) :=
  [strToList "en", strToList "es", strToList "fr", strToList "de",
   strToList "it", strToList "pt", strToList "hi", strToList "zh",
   strToList "ja", strToList "ko", strToList "ar", strToList "ru"]

/-- Retrieval engine collaborator as seen by the router:
`(question, language) -> (answer, source documents)`. -/
def Engine : Type := List Char → List Char → List Char × List Document

/-- Result of processing one inbound frame: the updated registry, the
outbound frames in emission order, and the retrieval-engine invocations
made while handling the frame. -/
structure TextResult (H : Type) where
  cm : ConnMgr H
  frames : List OutFrame
  engineCalls : List (List Char × List Char)
deriving DecidableEq

/-- Source records placed into the outbound `Text` frame by
`_handle_text_message`: at most the first two documents, each excerpt the
first 150 characters of the content followed by `"..."`. -/
def respSources (docs : List Document) : List SourceRec :=
  (docs.take 2).map (fun d =>
    { source := d.sourceName.getD (strToList "Unknown"),
      excerpt := d.page_content.take 150 ++ strToList "..." })

/-- `SupportAgentServer._handle_text_message`: reject empty (stripped)
content with an `Error` frame; otherwise emit typing on/off around the
engine call, send the `Text` response and bump the message counter. -/
def handleText {H : Type} (cm : ConnMgr H) (sid : Nat) (msg : InMsg)
    (engine : Engine) (now : Nat) : TextResult H :=
  let userMessage := pyStrip (msg.content.getD [])
  if userMessage.isEmpty then
    { cm := cm, frames := [.error (strToList "Empty message") now], engineCalls := [] }
  else
    let language := getLanguage cm sid
    let res := engine userMessage language
    { cm := incrementCount cm sid,
      frames := [.typing true, .typing false,
                 .text res.1 (respSources res.2) now],
      engineCalls := [(userMessage, language)] }

/-- `SupportAgentServer._send_audio_response`: the body is `pass`, so no
frame is ever emitted. -/
def sendAudioResponse (_sid : Nat) (_language : List Char) : List OutFrame := []

/-- Audio decoding collaborator (`AudioHandler.base64_to_audio`). -/
def AudioDecoder : Type := List Char → Except Unit (List Nat)

/-- Transcription collaborator (`AudioHandler.transcribe_audio`):
`(audio bytes, optional language hint) -> (text, detected language)`. -/
def Transcriber : Type := List Nat → Option (List Char) → List Char × List Char

/-- `SupportAgentServer._handle_audio_message`: reject missing audio data
or transcription failure with `Error` frames; otherwise possibly update
the session language, emit the `Transcription` frame, re-enter the text
path with the transcript and, when an audio reply is requested, append
whatever `_send_audio_response` emits. -/
def handleAudio {H : Type} (cm : ConnMgr H) (sid : Nat) (msg : InMsg)
    (decode : AudioDecoder) (transcribe : Transcriber) (engine : Engine)
    (now : Nat) : TextResult H :=
  let audioB64 := msg.audioData.getD []
  if audioB64.isEmpty then
    { cm := cm, frames := [.error (strToList "No audio data") now], engineCalls := [] }
  else
    match decode audioB64 with
    | .error _ =>
        { cm := cm, frames := [.error (strToList "Audio processing failed") now], engineCalls := [] }
    | .ok audioBytes =>
        let hint := getLanguage cm sid
        let tr := transcribe audioBytes (if hint = strToList "en" then none else some hint)
        if tr.1.isEmpty then
          { cm := cm, frames := [.error (strToList "Could not transcribe audio") now], engineCalls := [] }
        else
          let cm1 := if tr.2 = hint then cm else setLanguage cm sid tr.2
          let textRes := handleText cm1 sid
            { typeTag := none, content := some tr.1, audioData := none,
              wantAudioResponse := false, langField := none } engine now
          { cm := textRes.cm,
            frames := .transcription tr.1 tr.2 :: textRes.frames ++
              (if msg.wantAudioResponse then sendAudioResponse sid tr.2 else []),
            engineCalls := textRes.engineCalls }

/-- `SupportAgentServer._handle_language_change`: supported codes update
the session language and get a `System` acknowledgement, anything else an
`Error` frame with the registry untouched. -/
def handleLanguageChange {H : Type} (cm : ConnMgr H) (sid : Nat) (msg : InMsg)
    (now : Nat) : ConnMgr H × List OutFrame :=
  let newLanguage := msg.langField.getD (strToList "en")
  if newLanguage ∈ supportedLanguages then
    (setLanguage cm sid newLanguage,
     [.system (strToList "Language changed to " ++ newLanguage) (some newLanguage)])
  else
    (cm, [.error (strToList "Unsupported language") now])

/-- `SupportAgentServer._process_message` after JSON decoding: dispatch on
`message.get("type", "text")`, with unknown tags answered by an `Error`
frame. -/
def processMessage {H : Type} (cm : ConnMgr H) (sid : Nat) (msg : InMsg)
    (decode : AudioDecoder) (transcribe : Transcriber) (engine : Engine)
    (now : Nat) : TextResult H :=
  let messageType := msg.typeTag.getD (strToList "text")
  if messageType = strToList "text" then
    handleText cm sid msg engine now
  else if messageType = strToList "audio" then
    handleAudio cm sid msg decode transcribe engine now
  else if messageType = strToList "language" then
    let r := handleLanguageChange cm sid msg now
    { cm := r.1, frames := r.2, engineCalls := [] }
  else
    { cm := cm, frames := [.error (strToList "Unknown message type") now], engineCalls := [] }

/-- Sample registry with one session, used by concrete witness instances. -/
def sampleCm : ConnMgr Nat := ⟨[(1, 0)], [(1, ⟨0, strToList "en", 5⟩)]⟩

/-- Sample retrieval engine used by concrete witness instances. -/
def sampleEngine : Engine := fun _ _ =>
  (strToList "ok",
   [⟨strToList "alpha content", some (strToList "a.txt")⟩,
    ⟨strToList "beta content", some (strToList "b.txt")⟩,
    ⟨strToList "gamma content", some (strToList "c.txt")⟩])

/-- Audio decoder used by concrete witness instances. -/
def sampleDecoder : AudioDecoder := fun _ => .ok []

/-- Transcriber used by concrete witness instances. -/
def sampleTranscriber : Transcriber := fun _ _ => ([], strToList "en")

/-- Generation backend that always fails, used by witness instances. -/
def failingGen : Backend := fun _ => .error ()

/-! ### Association-list lemmas for the session registry -/

/-- Looking up a different key is unaffected by removal. -/
theorem alookup_aremove_ne {β : Type} (m : List (Nat × β)) (k k' : Nat) (h : k' ≠ k) :
    alookup (aremove m k) k' = alookup m k' := by
  induction m with
  | nil => rfl
  | cons p rest ih =>
    obtain ⟨k0, v⟩ := p
    simp only [aremove]
    by_cases hk : k0 = k
    · rw [if_pos hk]
      have hne : k0 ≠ k' := fun hh => h (hh ▸ hk)
      simp [alookup, hne, ih]
    · rw [if_neg hk]
      simp [alookup, ih]

/-- Removing an absent key is a no-op. -/
theorem aremove_of_alookup_none {β : Type} (m : List (Nat × β)) (k : Nat)
    (h : alookup m k = none) : aremove m k = m := by
  induction m with
  | nil => rfl
  | cons p rest ih =>
    obtain ⟨k0, v⟩ := p
    by_cases hk : k0 = k
    · simp [alookup, hk] at h
    · simp [alookup, hk] at h
      simp [aremove, hk, ih h]

/-- Updating a present key rewrites exactly its value. -/
theorem alookup_aupdate_self {β : Type} (m : List (Nat × β)) (k : Nat) (f : β → β)
    (v : β) (h : alookup m k = some v) : alookup (aupdate m k f) k = some (f v) := by
  induction m with
  | nil => simp [alookup] at h
  | cons p rest ih =>
    obtain ⟨k0, v0⟩ := p
    by_cases hk : k0 = k
    · simp [alookup, hk] at h
      simp [aupdate, alookup, hk, h]
    · simp [alookup, hk] at h
      simp [aupdate, alookup, hk, ih h]

/-! ### Claims about the session registry and message router -/

/-- C8: `Disconnect` is idempotent — called on an id absent from both
registry dictionaries it returns the registry unchanged (no error is
possible, the function is total), and for any id it leaves every other
session's transport handle and metadata entry untouched. -/
theorem disconnect_unknown_id_no_op {H : Type} (cm : ConnMgr H) (sid : Nat)
    (habs : alookup cm.active sid = none ∧ alookup cm.meta sid = none) :
    disconnect cm sid = cm ∧
    ∀ sid', sid' ≠ sid →
      alookup (disconnect cm sid).active sid' = alookup cm.active sid' ∧
      alookup (disconnect cm sid).meta sid' = alookup cm.meta sid' := by
  obtain ⟨act, met⟩ := cm
  obtain ⟨h1, h2⟩ := habs
  refine ⟨?_, ?_⟩
  · simp only [disconnect]
    rw [aremove_of_alookup_none _ _ h1, aremove_of_alookup_none _ _ h2]
  · intro sid' hne
    exact ⟨alookup_aremove_ne _ _ _ hne, alookup_aremove_ne _ _ _ hne⟩

/-- Witness for C8: removing the absent id 2 from a concrete one-session
registry returns it unchanged. -/
theorem disconnect_unknown_id_no_op_witness :
    disconnect sampleCm 2 = sampleCm :=
  (disconnect_unknown_id_no_op sampleCm 2 ⟨by decide, by decide⟩).1

/-- C4: an inbound `Text` frame whose content is empty yields exactly the
"Empty message" `Error` frame, leaves the registry (hence the session's
message counter) unchanged, and makes no retrieval-engine call. -/
theorem handleText_empty_content {H : Type} (cm : ConnMgr H) (sid : Nat)
    (msg : InMsg) (engine : Engine) (now : Nat) (h : msg.content = some []) :
    handleText cm sid msg engine now =
      { cm := cm, frames := [.error (strToList "Empty message") now], engineCalls := [] } := by
  simp [handleText, h, pyStrip, stripStart, stripEnd]

/-- Witness for C4 at a concrete registry, session and engine. -/
theorem handleText_empty_content_witness :
    handleText sampleCm 1 ⟨none, some [], none, false, none⟩ sampleEngine 0 =
      { cm := sampleCm, frames := [.error (strToList "Empty message") 0], engineCalls := [] } :=
  handleText_empty_content sampleCm 1 _ sampleEngine 0 rfl

/-- C5: a `Language` frame carrying a supported code updates the session's
language and sends a `System` acknowledgement; an unsupported code sends
an `Error` frame and leaves the registry (hence the session's language)
unchanged. -/
theorem handleLanguageChange_spec {H : Type} (cm : ConnMgr H) (sid : Nat)
    (msg : InMsg) (now : Nat) (code : List Char) (h : msg.langField = some code) :
    (code ∈ supportedLanguages →
      handleLanguageChange cm sid msg now =
        (setLanguage cm sid code,
         [.system (strToList "Language changed to " ++ code) (some code)]) ∧
      ∀ m, alookup cm.meta sid = some m →
        alookup (setLanguage cm sid code).meta sid = some { m with language := code }) ∧
    (code ∉ supportedLanguages →
      handleLanguageChange cm sid msg now =
        (cm, [.error (strToList "Unsupported language") now])) := by
  constructor
  · intro hmem
    constructor
    · simp [handleLanguageChange, h, hmem]
    · intro m hm
      simpa [setLanguage] using alookup_aupdate_self cm.meta sid _ m hm
  · intro hmem
    simp [handleLanguageChange, h, hmem]

/-- Witness for C5: switching the sample session to the supported code
"de" acknowledges and updates the stored metadata. -/
theorem handleLanguageChange_spec_witness :
    handleLanguageChange sampleCm 1
        ⟨some (strToList "language"), none, none, false, some (strToList "de")⟩ 0 =
      (setLanguage sampleCm 1 (strToList "de"),
       [.system (strToList "Language changed to " ++ strToList "de") (some (strToList "de"))]) ∧
    alookup (setLanguage sampleCm 1 (strToList "de")).meta 1 =
      some ⟨0, strToList "de", 5⟩ := by
  have h := (handleLanguageChange_spec sampleCm 1
    ⟨some (strToList "language"), none, none, false, some (strToList "de")⟩ 0
    (strToList "de") rfl).1 (by decide)
  exact ⟨h.1, h.2 ⟨0, strToList "en", 5⟩ rfl⟩

/-- C7: on a successful query the text handler emits typing-on, typing-off
and the `Text` response whose source list is built from at most the first
two returned documents, each excerpt being the document content truncated
to 150 characters with a trailing "..." marker. -/
theorem handleText_response_sources {H : Type} (cm : ConnMgr H) (sid : Nat)
    (msg : InMsg) (engine : Engine) (now : Nat)
    (h : (pyStrip (msg.content.getD [])).isEmpty = false) :
    handleText cm sid msg engine now =
      { cm := incrementCount cm sid,
        frames := [.typing true, .typing false,
          .text (engine (pyStrip (msg.content.getD [])) (getLanguage cm sid)).1
            (respSources (engine (pyStrip (msg.content.getD [])) (getLanguage cm sid)).2) now],
        engineCalls := [(pyStrip (msg.content.getD []), getLanguage cm sid)] } ∧
    (respSources (engine (pyStrip (msg.content.getD [])) (getLanguage cm sid)).2).length ≤ 2 ∧
    ∀ r ∈ respSources (engine (pyStrip (msg.content.getD [])) (getLanguage cm sid)).2,
      ∃ d ∈ (engine (pyStrip (msg.content.getD [])) (getLanguage cm sid)).2,
        r.excerpt = d.page_content.take 150 ++ strToList "..." := by
  refine ⟨?_, ?_, ?_⟩
  · simp [handleText, h]
  · simp only [respSources, List.length_map, List.length_take]
    omega
  · intro r hr
    simp only [respSources] at hr
    obtain ⟨d, hd, hrd⟩ := List.mem_map.mp hr
    exact ⟨d, List.take_subset _ _ hd, by rw [← hrd]⟩

/-- Witness for C7 at a concrete message and three-document engine. -/
theorem handleText_response_sources_witness :
    handleText sampleCm 1 ⟨none, some (strToList "hi"), none, false, none⟩ sampleEngine 0 =
      { cm := incrementCount sampleCm 1,
        frames := [.typing true, .typing false,
          .text (sampleEngine (pyStrip ((some (strToList "hi")).getD []))
                  (getLanguage sampleCm 1)).1
            (respSources (sampleEngine (pyStrip ((some (strToList "hi")).getD []))
                  (getLanguage sampleCm 1)).2) 0],
        engineCalls := [(pyStrip ((some (strToList "hi")).getD []), getLanguage sampleCm 1)] } ∧
    (respSources (sampleEngine (pyStrip ((some (strToList "hi")).getD []))
        (getLanguage sampleCm 1)).2).length ≤ 2 :=
  have h := handleText_response_sources sampleCm 1
    ⟨none, some (strToList "hi"), none, false, none⟩ sampleEngine 0 (by decide)
  ⟨h.1, h.2.1⟩

/-- C9: the audio-response synthesis path is a stub — `_send_audio_response`
emits no frame, and handling of an `Audio` frame is identical whether or
not an audio reply was requested. -/
theorem audio_reply_never_produced {H : Type} (cm : ConnMgr H) (sid : Nat)
    (t c a l : Option (List Char)) (decode : AudioDecoder)
    (transcribe : Transcriber) (engine : Engine) (now : Nat) :
    handleAudio cm sid ⟨t, c, a, true, l⟩ decode transcribe engine now =
      handleAudio cm sid ⟨t, c, a, false, l⟩ decode transcribe engine now ∧
    ∀ sid' lang, sendAudioResponse sid' lang = [] := by
  refine ⟨?_, fun _ _ => rfl⟩
  simp only [handleAudio, sendAudioResponse]
  cases decode (a.getD []) <;> simp

/-- C10: an inbound frame with the type discriminator absent defaults to
"text" and is dispatched to the text handler; it is never answered with
the unknown-message-type `Error` frame. -/
theorem processMessage_missing_tag {H : Type} (cm : ConnMgr H) (sid : Nat)
    (msg : InMsg) (decode : AudioDecoder) (transcribe : Transcriber)
    (engine : Engine) (now : Nat) (h : msg.typeTag = none) :
    processMessage cm sid msg decode transcribe engine now =
      handleText cm sid msg engine now ∧
    (processMessage cm sid msg decode transcribe engine now).frames ≠
      [.error (strToList "Unknown message type") now] := by
  have heq : processMessage cm sid msg decode transcribe engine now =
      handleText cm sid msg engine now := by
    simp [processMessage, h]
  refine ⟨heq, ?_⟩
  rw [heq]
  by_cases hc : (pyStrip (msg.content.getD [])).isEmpty
  · simp [handleText, hc]
    decide
  · simp [handleText, hc]

/-- Witness for C10: a tagless message with content "hi" is handled by the
text handler. -/
theorem processMessage_missing_tag_witness :
    processMessage sampleCm 1 ⟨none, some (strToList "hi"), none, false, none⟩
        sampleDecoder sampleTranscriber sampleEngine 0 =
      handleText sampleCm 1 ⟨none, some (strToList "hi"), none, false, none⟩
        sampleEngine 0 :=
  (processMessage_missing_tag sampleCm 1 _ sampleDecoder sampleTranscriber
    sampleEngine 0 rfl).1

/-! ### Claims about the retrieval engine -/

/-- C2: when chunks were found and the generation backend fails on the
grounded request, `query` returns the language-selected fallback string
and an empty source list (as a total function it cannot raise); the
fallback table has Spanish and French variants and yields the English
string for every other code. -/
theorem ragQuery_grounded_fallback (chunks : List Chunk) (gen : Backend)
    (question language : List Char)
    (hne : (simpleSearch chunks question 3).isEmpty = false)
    (hfail : gen (groundedRequest (simpleSearch chunks question 3) question) = .error ()) :
    ragQuery chunks gen question language = (fallbackResponse language, []) ∧
    fallbackResponse (strToList "en") = enFallback ∧
    fallbackResponse (strToList "es") = esFallback ∧
    fallbackResponse (strToList "fr") = frFallback ∧
    ∀ l, l ≠ strToList "en" → l ≠ strToList "es" → l ≠ strToList "fr" →
      fallbackResponse l = enFallback := by
  refine ⟨?_, by decide, by decide, by decide, ?_⟩
  · simp [ragQuery, hne, hfail]
  · intro l h1 h2 h3
    simp [fallbackResponse, dictGet, Ne.symm h1, Ne.symm h2, Ne.symm h3]

/-- Witness for C2: one matching chunk, a failing backend and the Spanish
language hint produce the Spanish fallback with no sources. -/
theorem ragQuery_grounded_fallback_witness :
    ragQuery [⟨strToList "hello world", strToList "kb.txt", strToList "kb.txt"⟩]
        failingGen (strToList "hello") (strToList "es") =
      (fallbackResponse (strToList "es"), []) :=
  (ragQuery_grounded_fallback
    [⟨strToList "hello world", strToList "kb.txt", strToList "kb.txt"⟩]
    failingGen (strToList "hello") (strToList "es") (by decide) rfl).1

/-- C6: when the search returns no chunks, `query` answers through the
ungrounded direct path — the backend request carries the fixed temperature
0.7, distinct from the configured default 0.3 — and a backend failure on
that path yields the generic apology string instead of an exception. -/
theorem ragQuery_ungrounded_path (chunks : List Chunk) (gen : Backend)
    (question language : List Char)
    (hempty : simpleSearch chunks question 3 = []) :
    ragQuery chunks gen question language = (directAnswer gen question, []) ∧
    (directRequest question).options.temperature = 7/10 ∧
    llmConfig.temperature ≠ (directRequest question).options.temperature ∧
    ∀ e, gen (directRequest question) = .error e →
      directAnswer gen question = apologyText := by
  refine ⟨?_, rfl, by norm_num [directRequest, llmConfig], ?_⟩
  · simp [ragQuery, hempty]
  · intro e hfail
    simp [directAnswer, hfail]

/-- Witness for C6: the empty store misses every query, and the failing
backend produces the apology text. -/
theorem ragQuery_ungrounded_path_witness :
    ragQuery [] failingGen (strToList "hi") (strToList "en") =
      (directAnswer failingGen (strToList "hi"), []) ∧
    directAnswer failingGen (strToList "hi") = apologyText :=
  have h := ragQuery_ungrounded_path [] failingGen (strToList "hi") (strToList "en") rfl
  ⟨h.1, h.2.2.2 () rfl⟩

/-! ### Lemmas about stripping and blank-line splitting -/

/-- Reversing a replicated list gives it back. -/
theorem reverse_replicate_self (n : Nat) (a : Char) :
    (List.replicate n a).reverse = List.replicate n a := by
  induction n with
  | zero => rfl
  | succ m ih =>
    calc (List.replicate (m + 1) a).reverse
        = ((List.replicate m a).reverse) ++ [a] := by
          rw [List.replicate_succ, List.reverse_cons]
      _ = List.replicate m a ++ [a] := by rw [ih]
      _ = List.replicate (m + 1) a := (List.replicate_succ' m a).symm

/-- Dropping the head preserves absence of a blank-line break. -/
theorem hasBlankBreak_of_cons {a : Char} {l : List Char}
    (h : hasBlankBreak (a :: l) = false) : hasBlankBreak l = false := by
  cases l with
  | nil => rfl
  | cons b r =>
    simp only [hasBlankBreak, Bool.or_eq_false_iff] at h
    exact h.2

/-- A run of at least two newlines is always a blank-line break. -/
theorem hasBlankBreak_replicate {n : Nat} (l : List Char) (h : 2 ≤ n) :
    hasBlankBreak (List.replicate n '\n' ++ l) = true := by
  obtain ⟨m, rfl⟩ := Nat.exists_eq_add_of_le h
  rw [Nat.add_comm 2 m]
  simp [List.replicate_succ, hasBlankBreak]

/-- Absorbing one more newline into the replicated run. -/
theorem replicate_newline_cons (n : Nat) (l : List Char) :
    List.replicate n '\n' ++ '\n' :: l = List.replicate (n + 1) '\n' ++ l := by
  rw [List.replicate_succ', List.append_assoc]
  rfl

/-- On text without blank-line breaks the paragraph scanner returns the
single paragraph made of everything it has seen. -/
theorem splitParaGo_no_break (l : List Char) :
    ∀ (acc : List Char) (nl : Nat),
      hasBlankBreak (List.replicate nl '\n' ++ l) = false →
      splitParaGo l acc nl = [acc.reverse ++ (List.replicate nl '\n' ++ l)] := by
  induction l with
  | nil =>
    intro acc nl h
    have hnl : ¬ 2 ≤ nl := by
      intro h2
      rw [hasBlankBreak_replicate [] h2] at h
      exact Bool.noConfusion h
    simp [splitParaGo, hnl, reverse_replicate_self]
  | cons c rest ih =>
    intro acc nl h
    by_cases hc : c = '\n'
    · subst hc
      rw [replicate_newline_cons] at h
      have e : splitParaGo ('\n' :: rest) acc nl = splitParaGo rest acc (nl + 1) := by
        simp [splitParaGo]
      rw [e, ih acc (nl + 1) h, replicate_newline_cons]
    · have hnl : ¬ 2 ≤ nl := by
        intro h2
        rw [hasBlankBreak_replicate (c :: rest) h2] at h
        exact Bool.noConfusion h
      have hrest : hasBlankBreak (List.replicate 0 '\n' ++ rest) = false := by
        interval_cases nl
        · exact hasBlankBreak_of_cons h
        · simp only [List.replicate, List.singleton_append] at h
          exact hasBlankBreak_of_cons (hasBlankBreak_of_cons h)
      simp only [splitParaGo, if_neg hc, if_neg hnl]
      rw [ih (c :: (List.replicate nl '\n' ++ acc)) 0 hrest]
      simp [reverse_replicate_self, List.append_assoc]

/-- Text without a blank-line break is a single paragraph. -/
theorem splitPara_no_break (text : List Char) (h : hasBlankBreak text = false) :
    splitPara text = [text] := by
  have := splitParaGo_no_break text [] 0 (by simpa using h)
  simpa [splitPara] using this

/-- Head of a `dropWhile` residue falsifies the predicate. -/
theorem dropWhile_head_false {p : Char → Bool} {l : List Char} {a : Char}
    {as : List Char} (h : l.dropWhile p = a :: as) : p a = false := by
  induction l with
  | nil => exact absurd h (by simp)
  | cons b r ih =>
    by_cases hb : p b
    · rw [List.dropWhile_cons_of_pos hb] at h
      exact ih h
    · rw [List.dropWhile_cons_of_neg hb] at h
      injection h with h1 h2
      rw [← h1]
      simpa using hb

/-- Applying `dropWhile` twice is the same as applying it once. -/
theorem dropWhile_dropWhile {p : Char → Bool} (l : List Char) :
    (l.dropWhile p).dropWhile p = l.dropWhile p := by
  cases h : l.dropWhile p with
  | nil => rfl
  | cons a as => rw [List.dropWhile_cons_of_neg (by simp [dropWhile_head_false h])]

/-- A nonempty stripped string starts with a non-whitespace character. -/
theorem pyStrip_head_false {x : List Char} {a : Char} {as : List Char}
    (h : pyStrip x = a :: as) : pyIsSpace a = false := by
  have hsplit : stripEnd (stripStart x) ++
      ((stripStart x).reverse.takeWhile pyIsSpace).reverse = stripStart x := by
    rw [stripEnd, ← List.reverse_append, List.takeWhile_append_dropWhile, List.reverse_reverse]
  rw [pyStrip] at h
  rw [h, List.cons_append] at hsplit
  exact dropWhile_head_false (p := pyIsSpace) (l := x) hsplit.symm

/-- The reverse of a stripped string is already newline-run free at its
head: dropping whitespace from it changes nothing. -/
theorem pyStrip_reverse_dropWhile (x : List Char) :
    (pyStrip x).reverse.dropWhile pyIsSpace = (pyStrip x).reverse := by
  have : (pyStrip x).reverse = ((stripStart x).reverse).dropWhile pyIsSpace := by
    simp [pyStrip, stripEnd]
  rw [this, dropWhile_dropWhile]

/-- Stripping is shorter than the original. -/
theorem pyStrip_length_le (x : List Char) : (pyStrip x).length ≤ x.length := by
  have h1 : (stripStart x).length ≤ x.length :=
    (List.dropWhile_suffix (l := x) pyIsSpace).sublist.length_le
  have h2 : (pyStrip x).length ≤ (stripStart x).length := by
    have := (List.dropWhile_suffix (l := (stripStart x).reverse) pyIsSpace).sublist.length_le
    simpa [pyStrip, stripEnd] using this
  omega

/-- Appending the two-newline separator to a nonempty stripped string and
stripping again recovers the stripped string (the `_split_text` flush). -/
theorem pyStrip_append_newlines {x : List Char} {a : Char} {as : List Char}
    (h : pyStrip x = a :: as) :
    pyStrip (pyStrip x ++ ['\n', '\n']) = pyStrip x := by
  have hhead : pyIsSpace a = false := pyStrip_head_false h
  have h1 : stripStart (pyStrip x ++ ['\n', '\n']) = pyStrip x ++ ['\n', '\n'] := by
    rw [h, List.cons_append, stripStart, List.dropWhile_cons_of_neg (by simp [hhead])]
  have h2 : stripEnd (pyStrip x ++ ['\n', '\n']) = pyStrip x := by
    rw [stripEnd, List.reverse_append]
    have hnl : pyIsSpace '\n' = true := by decide
    simp only [List.reverse_cons, List.reverse_nil, List.nil_append, List.cons_append,
      List.dropWhile_cons_of_pos hnl]
    rw [pyStrip_reverse_dropWhile, List.reverse_reverse]
  rw [pyStrip, h1, h2]

/-- Flushing a single short paragraph through the `_split_text` loop. -/
theorem splitGo_single (cs : Nat) (p : List Char)
    (hp : pyStrip p ≠ []) (hl : (pyStrip p).length < cs) :
    splitGo cs [p] [] [] = [pyStrip (pyStrip p ++ ['\n', '\n'])] := by
  simp only [splitGo]
  rw [if_neg (by simpa using hp)]
  rw [if_pos (by simpa using hl)]
  simp only [List.nil_append, splitGo]
  rw [if_neg (by simp [hp])]

/-! ### Claim C3 -/

/-- C3 counterexample: the document "hi\n" has no blank-line break and
length 3 < 800, yet `_split_text` returns the single chunk "hi", which is
not the whole input. -/
theorem splitText_counterexample :
    hasBlankBreak (strToList "hi\n") = false ∧
    (strToList "hi\n").length < 800 ∧
    splitText (strToList "hi\n") 800 = [strToList "hi"] ∧
    [strToList "hi"] ≠ [strToList "hi\n"] := by decide

/-- C3 (amended): on a document with no blank-line break and length below
`chunkSize`, `_split_text` yields exactly one chunk equal to the input
stripped of surrounding whitespace — the raw input itself when stripping
leaves nothing; and whenever the accumulation loop produced no chunks the
whole raw text is returned as the single chunk. -/
theorem splitText_no_blank_break (text : List Char) (cs : Nat)
    (hnb : hasBlankBreak text = false) (hlen : text.length < cs) :
    (pyStrip text = [] → splitText text cs = [text]) ∧
    (pyStrip text ≠ [] → splitText text cs = [pyStrip text]) ∧
    (splitGo cs (splitPara text) [] [] = [] → splitText text cs = [text]) := by
  have hpara : splitPara text = [text] := splitPara_no_break text hnb
  refine ⟨?_, ?_, ?_⟩
  · intro h0
    simp [splitText, hpara, splitGo, h0]
  · intro h0
    obtain ⟨a, as, ha⟩ : ∃ a as, pyStrip text = a :: as := by
      cases hh : pyStrip text with
      | nil => exact absurd hh h0
      | cons a as => exact ⟨a, as, rfl⟩
    have hl : (pyStrip text).length < cs :=
      lt_of_le_of_lt (pyStrip_length_le text) hlen
    have hflu := splitGo_single cs text h0 hl
    rw [pyStrip_append_newlines ha] at hflu
    simp [splitText, hpara, hflu]
  · intro h
    simp [splitText, h]

/-- Witness for the amended C3 at the concrete document "hi\n". -/
theorem splitText_no_blank_break_witness :
    splitText (strToList "hi\n") 800 = [pyStrip (strToList "hi\n")] :=
  (splitText_no_blank_break (strToList "hi\n") 800 (by decide) (by decide)).2.1 (by decide)

/-! ### Lemmas about the stable descending sort of scored chunks -/

/-- Membership in an insertion. -/
theorem mem_insertDesc {x y : Nat × Chunk} {l : List (Nat × Chunk)} :
    y ∈ insertDesc x l ↔ y = x ∨ y ∈ l := by
  induction l with
  | nil => simp [insertDesc]
  | cons z zs ih =>
    by_cases hz : z.1 ≤ x.1
    · simp [insertDesc, hz]
    · simp [insertDesc, hz, ih]
      tauto

/-- Inserting into a descending-sorted list keeps it descending. -/
theorem insertDesc_pairwise {x : Nat × Chunk} {l : List (Nat × Chunk)}
    (h : l.Pairwise (fun a b => b.1 ≤ a.1)) :
    (insertDesc x l).Pairwise (fun a b => b.1 ≤ a.1) := by
  induction l with
  | nil => simp [insertDesc]
  | cons z zs ih =>
    rw [List.pairwise_cons] at h
    obtain ⟨hz, hzs⟩ := h
    by_cases hc : z.1 ≤ x.1
    · simp only [insertDesc, if_pos hc]
      rw [List.pairwise_cons]
      refine ⟨?_, by rw [List.pairwise_cons]; exact ⟨hz, hzs⟩⟩
      intro b hb
      rcases List.mem_cons.mp hb with rfl | hb'
      · exact hc
      · exact le_trans (hz b hb') hc
    · simp only [insertDesc, if_neg hc]
      rw [List.pairwise_cons]
      refine ⟨?_, ih hzs⟩
      intro b hb
      rcases mem_insertDesc.mp hb with rfl | hb'
      · omega
      · exact hz b hb'

/-- The stable sort is descending in the score component. -/
theorem sortDesc_pairwise (l : List (Nat × Chunk)) :
    (sortDesc l).Pairwise (fun a b => b.1 ≤ a.1) := by
  induction l with
  | nil => simp [sortDesc]
  | cons x xs ih => exact insertDesc_pairwise ih

/-- The stable sort preserves membership. -/
theorem mem_sortDesc {y : Nat × Chunk} {l : List (Nat × Chunk)} :
    y ∈ sortDesc l ↔ y ∈ l := by
  induction l with
  | nil => simp [sortDesc]
  | cons x xs ih => simp [sortDesc, mem_insertDesc, ih]

/-- Filtering one score class through an insertion: the inserted element,
when in the class, lands exactly at the front (all elements passed over
have strictly larger scores). -/
theorem filter_insertDesc (s : Nat) (x : Nat × Chunk) (l : List (Nat × Chunk)) :
    (insertDesc x l).filter (fun p => p.1 = s) =
      if x.1 = s then x :: l.filter (fun p => p.1 = s)
      else l.filter (fun p => p.1 = s) := by
  induction l with
  | nil =>
    by_cases hx : x.1 = s <;> simp [insertDesc, hx]
  | cons z zs ih =>
    simp only [insertDesc]
    by_cases hc : z.1 ≤ x.1
    · rw [if_pos hc]
      by_cases hx : x.1 = s <;> by_cases hz : z.1 = s <;>
        simp [List.filter_cons, hx, hz]
    · rw [if_neg hc]
      by_cases hz : z.1 = s
      · have hx : ¬ x.1 = s := fun hh => hc (by omega)
        simp [List.filter_cons, hz, hx, ih]
      · by_cases hx : x.1 = s <;> simp [List.filter_cons, hz, hx, ih]

/-- The stable sort does not change any single score class: ties keep
their original relative order. -/
theorem filter_sortDesc (s : Nat) (l : List (Nat × Chunk)) :
    (sortDesc l).filter (fun p => p.1 = s) = l.filter (fun p => p.1 = s) := by
  induction l with
  | nil => rfl
  | cons x xs ih =>
    have hsort : sortDesc (x :: xs) = insertDesc x (sortDesc xs) := rfl
    rw [hsort, filter_insertDesc]
    by_cases hx : x.1 = s <;> simp [List.filter_cons, hx, ih]

/-- Elements of the scored list carry their own chunk's score and a
positive score. -/
theorem mem_scored_inv {qws : List (List Char)} {chunks : List Chunk}
    {pc : Nat × Chunk}
    (h : pc ∈ (chunks.map (fun c => (chunkScore qws c, c))).filter (fun p => 0 < p.1)) :
    pc.1 = chunkScore qws pc.2 ∧ 0 < pc.1 := by
  obtain ⟨hmem, hpos⟩ := List.mem_filter.mp h
  obtain ⟨c, hc, rfl⟩ := List.mem_map.mp hmem
  exact ⟨rfl, by simpa using hpos⟩

/-- Projecting the chunks out of a score-faithful pair list commutes with
filtering one score class. -/
theorem filter_map_snd (qws : List (List Char)) (s : Nat) :
    ∀ (L : List (Nat × Chunk)), (∀ pc ∈ L, pc.1 = chunkScore qws pc.2) →
      (L.map Prod.snd).filter (fun c => chunkScore qws c = s) =
        (L.filter (fun p => p.1 = s)).map Prod.snd := by
  intro L
  induction L with
  | nil => intro _; rfl
  | cons pc rest ih =>
    intro hinv
    have h1 : pc.1 = chunkScore qws pc.2 := hinv pc (by simp)
    have h2 := ih (fun q hq => hinv q (by simp [hq]))
    by_cases hs : chunkScore qws pc.2 = s
    · simp [List.filter_cons, hs, h1, h2]
    · simp [List.filter_cons, hs, h1, h2]

/-- Filtering a positive score class out of the scored pair list gives
exactly the chunks of that class, paired with their scores, in original
order. -/
theorem filter_scored (qws : List (List Char)) (chunks : List Chunk) (s : Nat)
    (hs : 1 ≤ s) :
    ((chunks.map (fun c => (chunkScore qws c, c))).filter (fun p => 0 < p.1)).filter
        (fun p => p.1 = s) =
      (chunks.filter (fun c => chunkScore qws c = s)).map
        (fun c => (chunkScore qws c, c)) := by
  induction chunks with
  | nil => rfl
  | cons c rest ih =>
    have hspos : 0 < s := hs
    have hzs : ¬ 0 = s := by omega
    by_cases hcs : chunkScore qws c = s
    · have hpos : 0 < chunkScore qws c := by omega
      simp [List.filter_cons, hcs, hpos, hspos, ih]
    · by_cases hpos : 0 < chunkScore qws c
      · simp [List.filter_cons, hcs, hpos, ih]
      · have h0 : chunkScore qws c = 0 := by omega
        simp [List.filter_cons, hcs, hpos, ih, h0, hzs]

/-! ### Claim C1 -/

/-- C1: for every store, query and cutoff `k`, `_simple_search` returns at
most `k` chunks, every returned chunk has score at least 1 (the score
counting distinct lowercased query words contained in the lowercased
content), the returned scores are non-increasing, and each score class of
the result is an initial segment of that score class of the store — ties
keep the original insertion order. -/
theorem simpleSearch_spec (chunks : List Chunk) (q : List Char) (k : Nat) :
    (simpleSearch chunks q k).length ≤ k ∧
    (∀ c ∈ simpleSearch chunks q k, 1 ≤ chunkScore (queryWords q) c) ∧
    ((simpleSearch chunks q k).map (chunkScore (queryWords q))).Pairwise
      (fun a b => b ≤ a) ∧
    ∀ s, ∃ t,
      (simpleSearch chunks q k).filter
          (fun c => chunkScore (queryWords q) c = s) ++ t =
        chunks.filter (fun c => chunkScore (queryWords q) c = s) := by
  have hres : simpleSearch chunks q k =
      ((sortDesc ((chunks.map (fun c => (chunkScore (queryWords q) c, c))).filter
        (fun p => 0 < p.1))).take k).map Prod.snd := rfl
  set qws := queryWords q with hq
  set scored := (chunks.map (fun c => (chunkScore qws c, c))).filter
    (fun p => 0 < p.1) with hscored
  have hinv : ∀ pc ∈ (sortDesc scored).take k, pc.1 = chunkScore qws pc.2 := by
    intro pc hpc
    exact (mem_scored_inv (mem_sortDesc.mp (List.take_subset _ _ hpc))).1
  refine ⟨?_, ?_, ?_, ?_⟩
  · rw [hres]
    simp only [List.length_map, List.length_take]
    exact min_le_left k _
  · intro c hc
    rw [hres] at hc
    obtain ⟨pc, hpc, rfl⟩ := List.mem_map.mp hc
    obtain ⟨h1, h2⟩ := mem_scored_inv (mem_sortDesc.mp (List.take_subset _ _ hpc))
    omega
  · rw [hres, List.map_map]
    have hmc : ((sortDesc scored).take k).map (chunkScore qws ∘ Prod.snd) =
        ((sortDesc scored).take k).map Prod.fst :=
      List.map_congr_left (fun pc hpc => (hinv pc hpc).symm)
    rw [hmc]
    rw [List.pairwise_map]
    exact ((sortDesc_pairwise scored).sublist (List.take_sublist k _))
  · intro s
    rcases Nat.eq_zero_or_pos s with h0 | hpos
    · subst h0
      refine ⟨chunks.filter (fun c => chunkScore qws c = 0), ?_⟩
      have hnil : (simpleSearch chunks q k).filter
          (fun c => chunkScore qws c = 0) = [] := by
        apply List.filter_eq_nil_iff.mpr
        intro c hc
        rw [hres] at hc
        obtain ⟨pc, hpc, rfl⟩ := List.mem_map.mp hc
        obtain ⟨h1, h2⟩ := mem_scored_inv (mem_sortDesc.mp (List.take_subset _ _ hpc))
        intro hcontra
        simp only [decide_eq_true_eq] at hcontra
        omega
      rw [hnil, List.nil_append]
    · refine ⟨(((sortDesc scored).drop k).filter (fun p => p.1 = s)).map Prod.snd, ?_⟩
      rw [hres]
      rw [filter_map_snd qws s _ hinv]
      rw [← List.map_append, ← List.filter_append, List.take_append_drop]
      rw [filter_sortDesc, filter_scored qws chunks s hpos]
      rw [List.map_map]
      have hid : (Prod.snd ∘ fun c : Chunk => (chunkScore qws c, c)) = id := rfl
      rw [hid, List.map_id]

/-- Witness for C1 on a concrete two-chunk store: cutoff respected, the
returned chunk scores 1, and the score-1 class of the result is an
initial segment of the store's score-1 class. -/
theorem simpleSearch_spec_witness :
    (simpleSearch [⟨strToList "x alpha", strToList "t1", strToList "t1"⟩,
        ⟨strToList "y alpha", strToList "t2", strToList "t2"⟩]
      (strToList "alpha") 1).length ≤ 1 ∧
    1 ≤ chunkScore (queryWords (strToList "alpha"))
        ⟨strToList "x alpha", strToList "t1", strToList "t1"⟩ ∧
    ∃ t,
      (simpleSearch [⟨strToList "x alpha", strToList "t1", strToList "t1"⟩,
          ⟨strToList "y alpha", strToList "t2", strToList "t2"⟩]
        (strToList "alpha") 1).filter
          (fun c => chunkScore (queryWords (strToList "alpha")) c = 1) ++ t =
      ([⟨strToList "x alpha", strToList "t1", strToList "t1"⟩,
        ⟨strToList "y alpha", strToList "t2", strToList "t2"⟩] : List Chunk).filter
          (fun c => chunkScore (queryWords (strToList "alpha")) c = 1) :=
  have h := simpleSearch_spec
    [⟨strToList "x alpha", strToList "t1", strToList "t1"⟩,
     ⟨strToList "y alpha", strToList "t2", strToList "t2"⟩]
    (strToList "alpha") 1
  ⟨h.1, h.2.1 ⟨strToList "x alpha", strToList "t1", strToList "t1"⟩ (by decide),
   h.2.2.2 1⟩
